import Mathlib

/-
Shallow embedding of `src/mcucpp/filesystem/src/file.cpp` (class Mcucpp::Fs::File),
a buffered file reader over a block-structured storage driver.

Machine integers are modelled as `Nat` with explicit reduction modulo `2 ^ 64`
(`TFileSize`, the file-offset type) and `2 ^ 32` (`size_t` / `uint32_t`)
exactly where the C++ arithmetic can wrap.  Driver calls and block-buffer
accesses performed by each member function are recorded as an event list, so
that theorems can speak about which driver operations an operation invokes and
which buffer indices it touches.
-/

namespace Mcucpp

def w32 : Nat := 2 ^ 32

def w64 : Nat := 2 ^ 64

/-- Wrapped subtraction of 64-bit unsigned values, `a - b` as C++ computes it. -/
def sub64 (a b : Nat) : Nat := (a + w64 - b % w64) % w64

/-- Wrapped subtraction of 32-bit unsigned values (`size_t` on the target). -/
def sub32 (a b : Nat) : Nat := (a + w32 - b % w32) % w32

/-- The block-storage driver interface consumed by `File` (IFsDriver):
block size, per-block read/write, chunk traversal and the end-of-chain test.
Storage contents are exposed through `readBlock`; nodes are numeric handles
with `0` playing the role of the null node. -/
structure IFsDriver where
  blockSize : Nat
  blocksPerNode : Nat → Nat
  nextChunk : Nat → Nat
  eofNode : Nat → Bool
  readBlock : Nat → List Nat

/-- One observable action of a `File` member function: a driver call or an
access to a range of indices of the in-memory block buffer. -/
inductive Ev where
  | drvReadBlock (addr : Nat)
  | drvWriteBlock (addr : Nat) (data : List Nat)
  | drvGetNextChunk (node : Nat)
  | drvGetBlocksPerNode (node : Nat)
  | drvEndOfFile (node : Nat)
  | bufRange (start len : Nat)
  deriving DecidableEq, Repr

/-- The five status/mode bits of `File::_flags`. -/
structure FileFlags where
  eof : Bool
  notExists : Bool
  outOfMem : Bool
  writable : Bool
  dirty : Bool
  deriving DecidableEq, Repr

def FileFlagsNone : FileFlags :=
  { eof := false, notExists := false, outOfMem := false, writable := false, dirty := false }

/-- The state of one `Mcucpp::Fs::File` object.  `blockBuffer = none` models a
null `_blockBuffer` pointer; `positionInFile` and `size` hold the value of the
corresponding 64-bit fields (always `< 2 ^ 64`in reachable states). -/
structure File where
  firstNode : Nat
  current : Nat
  blockBuffer : Option (List Nat)
  flags : FileFlags
  positionInFile : Nat
  size : Nat
  blockInChunk : Nat
  blockSize : Nat
  positionInBuffer : Nat
  deriving DecidableEq, Repr

/-- Constructor `File::File(IFsDriver&, FsNode, TFileSize)` (file.cpp:57-77).
`allocOk` models whether `new (std::nothrow) uint8_t[_blockSize]` succeeds;
the fresh buffer contents are unobservable before the first fill and are
modelled as zeros. -/
def File.mkBound (drv : IFsDriver) (node size : Nat) (allocOk : Bool) : File :=
  let bs := drv.blockSize
  let buf : Option (List Nat) := if allocOk then some (List.replicate bs 0) else none
  let fl1 := if allocOk then FileFlagsNone
             else { FileFlagsNone with outOfMem := true, eof := true }
  let fl2 := if node = 0 then { fl1 with eof := true, notExists := true } else fl1
  { firstNode := node, current := 0, blockBuffer := buf, flags := fl2,
    positionInFile := w64 - 1, size := size, blockInChunk := 0,
    blockSize := bs, positionInBuffer := bs }

/-- Constructor `File::File(IFsDriver&)` (file.cpp:43-55). -/
def File.mkDefault (drv : IFsDriver) : File :=
  { firstNode := 0, current := 0, blockBuffer := none,
    flags := { FileFlagsNone with eof := true, notExists := true },
    positionInFile := w64 - 1, size := 0, blockInChunk := 0,
    blockSize := drv.blockSize, positionInBuffer := drv.blockSize }

/-- Member `File::Flush()` (file.cpp:126-139).  Flush mutates no `File` field;
it only (conditionally) performs driver work, returned here as the event list.
The `&&` chain short-circuits, so the driver end-of-chain query happens exactly
when `_current` is non-null. -/
def File.Flush (drv : IFsDriver) (f : File) : List Ev :=
  match f.blockBuffer with
  | none => []
  | some buf =>
    if f.current ≠ 0 then
      if drv.eofNode f.current && f.flags.dirty && f.flags.writable then
        [Ev.drvEndOfFile f.current, Ev.bufRange 0 f.blockSize,
         Ev.drvWriteBlock (f.current + f.blockInChunk) buf]
      else [Ev.drvEndOfFile f.current]
    else []

/-- Result of `File::Read()`: returned byte, post-state, events. -/
structure ROut where
  byte : Nat
  st : File
  evs : List Ev
  deriving DecidableEq, Repr

/-- Tail of `File::Read()` after the refill block (file.cpp:180-185): fetch the
byte at `_positionInBuffer`, advance it, and set EOF when the absolute position
reaches `_size`. -/
def File.readFetch (f : File) (buf : List Nat) (evs : List Ev) : ROut :=
  let res := buf.getD f.positionInBuffer 0
  let pib := f.positionInBuffer + 1
  let fl := if (pib + f.positionInFile) % w64 ≥ f.size
            then { f.flags with eof := true } else f.flags
  ⟨res, { f with positionInBuffer := pib, flags := fl },
   evs ++ [Ev.bufRange f.positionInBuffer 1]⟩

/-- Member `uint8_t File::Read()` (file.cpp:141-186). -/
def File.Read (drv : IFsDriver) (f : File) : ROut :=
  if f.positionInBuffer ≥ f.blockSize then
    match f.blockBuffer with
    | none => ⟨0, f, []⟩
    | some _ =>
      if f.current = 0 then
        let f1 := { f with current := f.firstNode, positionInFile := 0 }
        let addr := f1.current + f1.blockInChunk
        let buf := drv.readBlock addr
        let f2 := { f1 with blockBuffer := some buf, positionInBuffer := 0 }
        File.readFetch f2 buf [Ev.drvReadBlock addr, Ev.bufRange 0 f1.blockSize]
      else
        if drv.eofNode f.current then ⟨0, f, [Ev.drvEndOfFile f.current]⟩
        else
          let ev1 := [Ev.drvEndOfFile f.current] ++ File.Flush drv f
                      ++ [Ev.drvGetBlocksPerNode f.current]
          let bic1 := f.blockInChunk + 1
          if bic1 ≥ drv.blocksPerNode f.current then
            let next := drv.nextChunk f.current
            let ev2 := ev1 ++ [Ev.drvGetNextChunk f.current, Ev.drvEndOfFile next]
            if drv.eofNode next then
              ⟨0, { f with blockInChunk := 0, flags := { f.flags with eof := true } }, ev2⟩
            else
              let f1 := { f with
                current := next, blockInChunk := 0,
                flags := { f.flags with eof := false },
                positionInFile := (f.positionInFile + f.blockSize) % w64 }
              let addr := f1.current + f1.blockInChunk
              let buf := drv.readBlock addr
              let f2 := { f1 with blockBuffer := some buf, positionInBuffer := 0 }
              File.readFetch f2 buf (ev2 ++ [Ev.drvReadBlock addr, Ev.bufRange 0 f1.blockSize])
          else
            let f1 := { f with
              blockInChunk := bic1,
              positionInFile := (f.positionInFile + f.blockSize) % w64 }
            let addr := f1.current + f1.blockInChunk
            let buf := drv.readBlock addr
            let f2 := { f1 with blockBuffer := some buf, positionInBuffer := 0 }
            File.readFetch f2 buf (ev1 ++ [Ev.drvReadBlock addr, Ev.bufRange 0 f1.blockSize])
  else
    File.readFetch f (f.blockBuffer.getD []) []

/-- Result of `size_t File::Read(void*, size_t)`: byte count actually read,
the bytes written to the destination, post-state, events. -/
structure BOut where
  n : Nat
  dest : List Nat
  st : File
  evs : List Ev
  deriving DecidableEq, Repr

/-- Post-loop EOF check of the bulk read (file.cpp:260-264). -/
def File.readBufFinish (bytesRead : Nat) (dest : List Nat) (f : File) (evs : List Ev) : BOut :=
  let fl := if (f.positionInBuffer + f.positionInFile) % w64 ≥ f.size
            then { f.flags with eof := true } else f.flags
  ⟨bytesRead, dest, { f with flags := fl }, evs⟩

/-- Cursor-advance step of the bulk-read loop (file.cpp:214-241).  `Sum.inl`
is the `break` outcome (chain exhausted, EOF flag set), `Sum.inr` the state in
which the loop proceeds to `ReadBlock`. -/
def File.bulkAdvance (drv : IFsDriver) (f : File) : (File × List Ev) ⊕ (File × List Ev) :=
  if f.current = 0 then
    Sum.inr ({ f with current := f.firstNode, positionInFile := 0 }, [])
  else if drv.eofNode f.current then
    Sum.inl ({ f with flags := { f.flags with eof := true } }, [Ev.drvEndOfFile f.current])
  else
    let ev1 := [Ev.drvEndOfFile f.current] ++ File.Flush drv f
                ++ [Ev.drvGetBlocksPerNode f.current]
    let bic1 := f.blockInChunk + 1
    if bic1 ≥ drv.blocksPerNode f.current then
      let next := drv.nextChunk f.current
      let ev2 := ev1 ++ [Ev.drvGetNextChunk f.current, Ev.drvEndOfFile next]
      if drv.eofNode next then
        Sum.inl ({ f with blockInChunk := 0, flags := { f.flags with eof := true } }, ev2)
      else
        Sum.inr ({ f with
          current := next, blockInChunk := 0,
          flags := { f.flags with eof := false },
          positionInFile := (f.positionInFile + f.blockSize) % w64 }, ev2)
    else
      Sum.inr ({ f with
        blockInChunk := bic1,
        positionInFile := (f.positionInFile + f.blockSize) % w64 }, ev1)

/-- The `while` loop of the bulk read (file.cpp:211-258), with fuel; `none`
means the fuel ran out before the loop finished.  Carries the running byte
count, destination contents and event trace. -/
def File.readBufLoop (drv : IFsDriver) (bytesToRead : Nat) :
    Nat → Nat → List Nat → File → List Ev → Option BOut
  | 0, _, _, _, _ => none
  | fuel + 1, bytesRead, dest, f, evs =>
    if bytesRead < bytesToRead ∧ (f.positionInBuffer + f.positionInFile) % w64 < f.size then
      match File.bulkAdvance drv f with
      | Sum.inl (f1, ev) => some (File.readBufFinish bytesRead dest f1 (evs ++ ev))
      | Sum.inr (f1, ev) =>
        let addr := f1.current + f1.blockInChunk
        let buf := drv.readBlock addr
        let totalAvail := if f1.positionInFile < f1.size
                          then (f1.size - f1.positionInFile) % w32 else 0
        let cs0 := min (bytesToRead - bytesRead) f1.blockSize
        let clip := cs0 > totalAvail
        let cs := if clip then totalAvail else cs0
        let fl := if clip then { f1.flags with eof := true } else f1.flags
        let f2 := { f1 with blockBuffer := some buf, positionInBuffer := cs, flags := fl }
        File.readBufLoop drv bytesToRead fuel (bytesRead + cs) (dest ++ buf.take cs) f2
          (evs ++ ev ++ [Ev.drvReadBlock addr, Ev.bufRange 0 f1.blockSize, Ev.bufRange 0 cs])
    else some (File.readBufFinish bytesRead dest f evs)

/-- Member `size_t File::Read(void *buffer, size_t bytesToRead)`
(file.cpp:188-265). -/
def File.ReadBuf (drv : IFsDriver) (f : File) (bytesToRead fuel : Nat) : Option BOut :=
  match f.blockBuffer with
  | none => some ⟨0, [], f, []⟩
  | some buf =>
    let totalAvail := if (f.positionInBuffer + f.positionInFile) % w64 < f.size
      then (f.size - (f.positionInBuffer + f.positionInFile) % w64) % w32 else 0
    let bytesInBuffer := sub32 f.blockSize f.positionInBuffer
    let br0 := min bytesToRead bytesInBuffer
    let br := if br0 > totalAvail then totalAvail else br0
    let dest0 := (buf.drop f.positionInBuffer).take br
    let f1 := { f with positionInBuffer := f.positionInBuffer + br }
    File.readBufLoop drv bytesToRead fuel br dest0 f1 [Ev.bufRange f.positionInBuffer br]

/-- Member `bool File::Write(uint8_t)` (file.cpp:267-274): the writable branch
has an empty body and the function returns `false` unconditionally. -/
def File.Write (f : File) (value : Nat) : Bool × File := (false, f)

/-- Result of `File::Seek`. -/
structure SOut where
  ok : Bool
  st : File
  evs : List Ev
  deriving DecidableEq, Repr

/-- The chunk-walk loop of `File::Seek` (file.cpp:291-307), with fuel.
`Sum.inl` is an early `return false` (chain exhausted); `Sum.inr` means the
loop finished and `Seek` proceeds to `ReadBlock`. -/
def File.seekLoop (drv : IFsDriver) (pos : Nat) :
    Nat → File → List Ev → Option ((File × List Ev) ⊕ (File × List Ev))
  | 0, _, _ => none
  | fuel + 1, f, evs =>
    if pos > (f.positionInFile + f.blockSize) % w64 then
      let ev1 := evs ++ [Ev.drvEndOfFile f.current]
      if drv.eofNode f.current then some (Sum.inl (f, ev1))
      else
        let hop := f.blockInChunk ≥ drv.blocksPerNode f.current
        let f1 := if hop then { f with current := drv.nextChunk f.current, blockInChunk := 0 }
                  else f
        let ev2 := ev1 ++ [Ev.drvGetBlocksPerNode f.current]
                       ++ (if hop then [Ev.drvGetNextChunk f.current] else [])
        let ev3 := ev2 ++ [Ev.drvEndOfFile f1.current]
        if drv.eofNode f1.current then some (Sum.inl (f1, ev3))
        else File.seekLoop drv pos fuel
               { f1 with positionInFile := (f1.positionInFile + f1.blockSize) % w64 } ev3
    else some (Sum.inr (f, evs))

/-- Member `bool File::Seek(TFileSize pos)` (file.cpp:276-313).  Note that the
source returns `false` on every path, including the successful ones
(file.cpp:312). -/
def File.Seek (drv : IFsDriver) (f : File) (pos fuel : Nat) : Option SOut :=
  match f.blockBuffer with
  | none => some ⟨false, f, []⟩
  | some _ =>
    if pos ≥ (f.positionInFile + f.blockSize) % w64 ∨ pos < f.positionInFile then
      let f1 := if pos < f.positionInFile
                then { f with current := f.firstNode, positionInFile := 0 } else f
      let evF := File.Flush drv f1
      match File.seekLoop drv pos fuel f1 evF with
      | none => none
      | some (Sum.inl (f2, evs)) => some ⟨false, f2, evs⟩
      | some (Sum.inr (f2, evs)) =>
        let addr := f2.current + f2.blockInChunk
        let buf := drv.readBlock addr
        let f3 := { f2 with
          blockBuffer := some buf,
          positionInBuffer := (sub64 pos f2.positionInFile) % w32,
          flags := { f2.flags with eof := false } }
        some ⟨false, f3, evs ++ [Ev.drvReadBlock addr, Ev.bufRange 0 f2.blockSize]⟩
    else
      some ⟨false, { f with
        positionInBuffer := (sub64 pos f.positionInFile) % w32,
        flags := { f.flags with eof := false } }, []⟩

/-- Member `bool File::EndOfFile()` (file.cpp:315-318). -/
def File.EndOfFile (f : File) : Bool := f.flags.eof

/-- Member `bool File::Open(const char*)` (file.cpp:99-124).
`resolvedNode` and `resolvedSize` — Modelled from the spec: the
`FindNodeLister::Find` path-resolution collaborator is not under src/; per the
spec it resolves the path to a (node, size) pair, with a null node when the
path does not exist.  `allocOk` models whether the buffer allocation succeeds
when attempted. -/
def File.Open (drv : IFsDriver) (f : File) (resolvedNode resolvedSize : Nat)
    (allocOk : Bool) : Bool × File :=
  let bs := drv.blockSize
  let buf := match f.blockBuffer with
    | some b => some b
    | none => if allocOk then some (List.replicate bs 0) else none
  let f1 := { f with blockSize := bs, blockBuffer := buf, positionInBuffer := bs }
  match buf with
  | none => (false, { f1 with flags := { f1.flags with outOfMem := true, eof := true } })
  | some _ =>
    let f2 := { f1 with firstNode := resolvedNode, size := resolvedSize }
    if resolvedNode = 0 then
      (false, { f2 with flags := { f2.flags with eof := true, notExists := true } })
    else (true, f2)

/-- Destructor `File::~File()` (file.cpp:90-97): flush, then release the
buffer.  Its observable behaviour is Flush's event trace. -/
def File.destruct (drv : IFsDriver) (f : File) : List Ev := File.Flush drv f

/-- Iterated single-byte `Read()`: the list of returned bytes and final state. -/
def File.readSeq (drv : IFsDriver) : Nat → File → List Nat × File
  | 0, f => ([], f)
  | n + 1, f =>
    let r := File.Read drv f
    let rest := File.readSeq drv n r.st
    (r.byte :: rest.1, rest.2)

/-- Concrete example driver used to evaluate the code on explicit inputs:
block size 4, two blocks per chunk, chunk chain node 1 → node 3, node 0 the
terminal sentinel.  Block at address `node + blockInChunk`; the 16 file bytes
are 10, 20, ..., 160. -/
def exDrv : IFsDriver where
  blockSize := 4
  blocksPerNode := fun _ => 2
  nextChunk := fun n => if n = 1 then 3 else 0
  eofNode := fun n => n = 0
  readBlock := fun a =>
    if a = 1 then [10, 20, 30, 40]
    else if a = 2 then [50, 60, 70, 80]
    else if a = 3 then [90, 100, 110, 120]
    else if a = 4 then [130, 140, 150, 160]
    else [0, 0, 0, 0]

/-- A freshly opened 2-byte file on `exDrv` (size smaller than one block). -/
def exFile2 : File := File.mkBound exDrv 1 2 true

/-- A freshly opened 16-byte file on `exDrv` (spans both chunks). -/
def exFile16 : File := File.mkBound exDrv 1 16 true

/-- Result of `Seek(1)` on the fresh 16-byte file. -/
def exSeek1 : SOut := (File.Seek exDrv exFile16 1 20).getD ⟨true, exFile16, []⟩

/-- State of the 16-byte file after reading all 16 bytes (EndOfFile set). -/
def exAtEof16 : File := (File.readSeq exDrv 16 exFile16).2

/-- Result of the in-range `Seek(12)` from `exAtEof16`. -/
def exSeekBack : SOut := (File.Seek exDrv exAtEof16 12 20).getD ⟨true, exAtEof16, []⟩

/-- State of the 16-byte file after one single-byte read (block 0 buffered,
cursor at offset 1). -/
def exAfter1 : File := (File.readSeq exDrv 1 exFile16).2

/-- State after three single-byte reads of the 2-byte file: the cursor has
moved past the declared file size inside the buffered block. -/
def exOverrun : File := (File.readSeq exDrv 3 exFile2).2

/-- Constructor `File::File(IFsDriver&, const char*)` (file.cpp:79-88).  The
initializer list leaves `_blockBuffer` and `_firstNode` uninitialized before
calling `Open`; the indeterminate values are taken as parameters. -/
def File.mkOpen (drv : IFsDriver) (junkBuf : Option (List Nat)) (junkFirst : Nat)
    (resolvedNode resolvedSize : Nat) (allocOk : Bool) : Bool × File :=
  File.Open drv
    { firstNode := junkFirst, current := 0, blockBuffer := junkBuf,
      flags := { FileFlagsNone with notExists := true }, positionInFile := w64 - 1,
      size := 0, blockInChunk := 0, blockSize := 0, positionInBuffer := 0 }
    resolvedNode resolvedSize allocOk

/-- Field-boundedness invariant maintained by every operation: positive block
size below `2 ^ 32`, buffer cursor within `[0, blockSize]`, and a file
position that fits in 64 bits. -/
def BufInv (f : File) : Prop :=
  1 ≤ f.blockSize ∧ f.blockSize < w32 ∧ f.positionInBuffer ≤ f.blockSize ∧
  f.positionInFile < w64

/-- One public read/seek/flush operation performed on the file state
(`Flush` mutates no field, so its step is the identity; the fueled
operations step only when they terminate). -/
inductive Step (drv : IFsDriver) : File → File → Prop where
  | read (f : File) : Step drv f (File.Read drv f).st
  | readBuf (f : File) (n fuel : Nat) (out : BOut)
      (h : File.ReadBuf drv f n fuel = some out) : Step drv f out.st
  | seek (f : File) (pos fuel : Nat) (out : SOut)
      (h : File.Seek drv f pos fuel = some out) : Step drv f out.st
  | flushOp (f : File) : Step drv f f

/-- States reachable from `s0` by any sequence of Read, bulk Read, Seek and
Flush calls. -/
def ReachableFrom (drv : IFsDriver) (s0 s : File) : Prop :=
  Relation.ReflTransGen (Step drv) s0 s

/-- A step by any public operation, additionally covering Write, Open and
destruction (whose observable part, Flush, mutates nothing). -/
inductive StepAll (drv : IFsDriver) : File → File → Prop where
  | read (f : File) : StepAll drv f (File.Read drv f).st
  | readBuf (f : File) (n fuel : Nat) (out : BOut)
      (h : File.ReadBuf drv f n fuel = some out) : StepAll drv f out.st
  | seek (f : File) (pos fuel : Nat) (out : SOut)
      (h : File.Seek drv f pos fuel = some out) : StepAll drv f out.st
  | flushOp (f : File) : StepAll drv f f
  | write (f : File) (v : Nat) : StepAll drv f (File.Write f v).2
  | openOp (f : File) (rn rs : Nat) (aok : Bool) :
      StepAll drv f (File.Open drv f rn rs aok).2

/-- A state produced by one of the three constructors. -/
def CtorState (drv : IFsDriver) (f : File) : Prop :=
  (∃ node size allocOk, f = File.mkBound drv node size allocOk) ∨
  f = File.mkDefault drv ∨
  (∃ junkBuf junkFirst rn rs allocOk,
    f = (File.mkOpen drv junkBuf junkFirst rn rs allocOk).2)

/-- Reachable from some constructed state by any sequence of public
operations. -/
def Reach10 (drv : IFsDriver) (f : File) : Prop :=
  ∃ s0, CtorState drv s0 ∧ Relation.ReflTransGen (StepAll drv) s0 f

/-- True for every event except a driver WriteBlock. -/
def Ev.isNotWrite : Ev → Bool
  | Ev.drvWriteBlock _ _ => false
  | _ => true

/-- No driver WriteBlock occurs in the trace. -/
def noWrites (evs : List Ev) : Bool := evs.all Ev.isNotWrite

/-- A buffer access stays below index `bs` (a zero-length range touches
nothing); driver events are unconstrained. -/
def Ev.inBounds (bs : Nat) : Ev → Bool
  | Ev.bufRange s l => decide (l = 0 ∨ s + l ≤ bs)
  | _ => true

/-- Every buffer access in the trace is within bounds for block size `bs`. -/
def evsOk (bs : Nat) (evs : List Ev) : Bool := evs.all (Ev.inBounds bs)

/-- Node of chunk `i` of the chain starting at `first`. -/
def chainNode (drv : IFsDriver) (first : Nat) : Nat → Nat
  | 0 => first
  | i + 1 => drv.nextChunk (chainNode drv first i)

/-- Byte `x` of the file as laid out by the driver on the chunk chain:
block `x / blockSize` of the file is block `(x / blockSize) % bpn` of chunk
`(x / blockSize) / bpn`.  This is the specification-side description of the
flat byte stream the buffered reader presents. -/
def specByteAt (drv : IFsDriver) (first bpn x : Nat) : Nat :=
  let j := x / drv.blockSize
  (drv.readBlock (chainNode drv first (j / bpn) + j % bpn)).getD (x % drv.blockSize) 0

/-- Well-formedness of the chunk chain backing a file of length `size`:
positive block size and blocks-per-node count (uniform along the chain),
and every chunk that contains a byte below `size` is a live, non-terminal
node. -/
structure ChainWF (drv : IFsDriver) (first size bpn : Nat) : Prop where
  bs_pos : 1 ≤ drv.blockSize
  bs_lt : drv.blockSize < w32
  bpn_pos : 1 ≤ bpn
  size_pos : 1 ≤ size
  size_lt : size < w32
  first_ne : first ≠ 0
  nodes : ∀ i, i * (bpn * drv.blockSize) < size →
    chainNode drv first i ≠ 0 ∧ drv.eofNode (chainNode drv first i) = false ∧
    drv.blocksPerNode (chainNode drv first i) = bpn

/-- The file state after `k` sequential single-byte reads (`1 ≤ k ≤ size`) of
a file opened on a well-formed chain: with `j = (k-1) / blockSize` the index
of the buffered block, the cursor sits at byte `k - j·blockSize` of block
`j % bpn` of chunk `j / bpn`, and EndOfFile holds exactly when `k = size`. -/
def seqStateOf (drv : IFsDriver) (first size bpn k : Nat) : File :=
  let bs := drv.blockSize
  let j := (k - 1) / bs
  { firstNode := first,
    current := chainNode drv first (j / bpn),
    blockBuffer := some (drv.readBlock (chainNode drv first (j / bpn) + j % bpn)),
    flags := { FileFlagsNone with eof := decide (size ≤ k) },
    positionInFile := j * bs, size := size, blockInChunk := j % bpn,
    blockSize := bs, positionInBuffer := k - j * bs }

end Mcucpp

namespace Mcucpp

lemma w32_pos : 0 < w32 := by norm_num [w32]

lemma w64_pos : 0 < w64 := by norm_num [w64]

lemma w32_lt_w64 : w32 < w64 := by norm_num [w32, w64]

/-- C6: Flush is a no-op when no buffer is allocated (hence destruction is
safe in the OutOfMemory and NotExists states, performing no buffer access),
and it invokes the driver WriteBlock, at `currentNode + blockInChunk` with the
current buffer contents, exactly when a buffer is allocated, the current node
is non-null and is reported terminal by the driver, and the BufferDirty and
Writable flags are both set. -/
theorem C6_flush_contract (drv : IFsDriver) (f : File) :
    (f.blockBuffer = none → File.Flush drv f = []) ∧
    (∀ a d, Ev.drvWriteBlock a d ∈ File.Flush drv f ↔
      (f.blockBuffer = some d ∧ f.current ≠ 0 ∧ drv.eofNode f.current = true ∧
       f.flags.dirty = true ∧ f.flags.writable = true ∧ a = f.current + f.blockInChunk)) ∧
    (∀ node size, File.destruct drv (File.mkBound drv node size false) = []) ∧
    (∀ size, File.destruct drv (File.mkBound drv 0 size true) = []) := by
  refine ⟨?_, ?_, ?_, ?_⟩
  · intro h; simp [File.Flush, h]
  · intro a d
    unfold File.Flush
    cases hb : f.blockBuffer with
    | none => simp [hb]
    | some b =>
      by_cases hc : f.current = 0
      · simp [hb, hc]
      · dsimp only
        rw [if_pos (show f.current ≠ 0 from hc)]
        by_cases hcond : (drv.eofNode f.current && f.flags.dirty && f.flags.writable) = true
        · rw [if_pos hcond]
          simp only [Bool.and_eq_true] at hcond
          simp only [List.mem_cons, List.not_mem_nil, or_false]
          constructor
          · rintro (h | h | h)
            · exact absurd h (by simp)
            · exact absurd h (by simp)
            · obtain ⟨ha, hd⟩ := Ev.drvWriteBlock.inj h
              exact ⟨by rw [hd], hc, hcond.1.1, hcond.1.2, hcond.2, ha⟩
          · rintro ⟨h1, _, _, _, _, h6⟩
            right; right
            rw [h6]
            have hbd : d = b := by injection h1.symm
            rw [hbd]
        · rw [if_neg hcond]
          simp only [Bool.and_eq_true, not_and] at hcond
          simp only [List.mem_singleton]
          constructor
          · intro h; exact absurd h (by simp)
          · rintro ⟨_, _, h3, h4, h5, _⟩
            exact absurd h5 (by tauto)
  · intro node size
    simp [File.destruct, File.Flush, File.mkBound]
  · intro size
    simp [File.destruct, File.Flush, File.mkBound]

/-- C6 witness: on the default-constructed file (no buffer), Flush does
nothing at all. -/
theorem C6_flush_contract_witness : File.Flush exDrv (File.mkDefault exDrv) = [] :=
  (C6_flush_contract exDrv (File.mkDefault exDrv)).1 rfl

end Mcucpp

namespace Mcucpp

/-- C5: when the buffer allocation fails at open, Open returns false, the
OutOfMemory and EndOfFile flags are set, and every subsequent single-byte or
bulk read (the post-open state has no buffer and a stale cursor, and reads
preserve that state exactly) returns 0 bytes with an empty event trace, i.e.
without invoking any driver operation. -/
theorem C5_alloc_failure (drv : IFsDriver) (f : File) (rn rs : Nat)
    (hbuf : f.blockBuffer = none) :
    (File.Open drv f rn rs false).1 = false ∧
    (File.Open drv f rn rs false).2.flags.outOfMem = true ∧
    File.EndOfFile (File.Open drv f rn rs false).2 = true ∧
    (File.Open drv f rn rs false).2.blockBuffer = none ∧
    (File.Open drv f rn rs false).2.positionInBuffer = (File.Open drv f rn rs false).2.blockSize ∧
    (∀ g : File, g.blockBuffer = none → g.blockSize ≤ g.positionInBuffer →
       File.Read drv g = ⟨0, g, []⟩ ∧
       ∀ n fuel, File.ReadBuf drv g n fuel = some ⟨0, [], g, []⟩) := by
  refine ⟨?_, ?_, ?_, ?_, ?_, ?_⟩
  · simp [File.Open, hbuf]
  · simp [File.Open, hbuf]
  · simp [File.Open, File.EndOfFile, hbuf]
  · simp [File.Open, hbuf]
  · simp [File.Open, hbuf]
  · intro g hg hpib
    constructor
    · unfold File.Read
      rw [if_pos hpib, hg]
    · intro n fuel
      simp [File.ReadBuf, hg]

/-- C5 witness: the concrete failed open on the default-constructed file
returns false. -/
theorem C5_alloc_failure_witness :
    (File.Open exDrv (File.mkDefault exDrv) 1 16 false).1 = false :=
  (C5_alloc_failure exDrv (File.mkDefault exDrv) 1 16 rfl).1

/-- C1 (code bug): on a freshly opened 2-byte file with block size 4, two
single-byte Reads yield the bytes 10, 20, but one bulk Read of 2 bytes
transfers 0 bytes — the bulk read's entry guard computes the absolute
position from the sentinel `_positionInFile = TFileSize(-1)`, which wraps to
`blockSize - 1` and is not `< _size` when the file is smaller than one
block. -/
theorem C1_bulk_read_divergence :
    (File.readSeq exDrv 2 exFile2).1 = [10, 20] ∧
    (File.ReadBuf exDrv exFile2 2 10).map (fun o => (o.n, o.dest)) = some (0, []) ∧
    exFile2.size = 2 := by decide

/-- C2 (code bug): byte 5 of the 16-byte file is 60 when read sequentially
from offset 0, but `Seek(5)` followed by `Read()` returns 20 (byte 1): the
seek walk loop advances `_positionInFile` without ever advancing
`_blockInChunk`, so it reloads the block at the pre-walk address. -/
theorem C2_seek_wrong_block :
    (File.readSeq exDrv 16 exFile16).1.getD 5 0 = 60 ∧
    (File.Seek exDrv exFile16 5 20).map (fun o => (File.Read exDrv o.st).byte) = some 20 ∧
    (20 : Nat) ≠ 60 := by decide

/-- C3 (code bug): `Seek(1)` on the fresh 16-byte file succeeds — afterwards
the buffer holds the block covering offset 1 and the next Read returns byte 1
(value 20, matching sequential reading) — yet Seek returns false, the same
value as its failure paths (file.cpp:312). -/
theorem C3_seek_false_on_success :
    (File.Seek exDrv exFile16 1 20).isSome = true ∧
    exSeek1.ok = false ∧
    exSeek1.st.positionInFile = 0 ∧
    exSeek1.st.blockSize = 4 ∧
    exSeek1.st.positionInBuffer = 1 ∧
    exSeek1.st.blockBuffer = some [10, 20, 30, 40] ∧
    (File.Read exDrv exSeek1.st).byte = 20 ∧
    (File.readSeq exDrv 16 exFile16).1.getD 1 0 = 20 := by decide

/-- C4 counterexample: on the 2-byte file, after reading size - 1 = 1 byte
(EndOfFile still false), the further single-byte Read returns 20 — the last
byte of the file — not 0 as the claim states; it does set EndOfFile. -/
theorem C4_counterexample :
    exFile2.size = 2 ∧
    (File.readSeq exDrv 1 exFile2).2.flags.eof = false ∧
    (File.Read exDrv (File.readSeq exDrv 1 exFile2).2).byte = 20 ∧
    (20 : Nat) ≠ 0 ∧
    (File.Read exDrv (File.readSeq exDrv 1 exFile2).2).st.flags.eof = true := by decide

/-- C7 counterexample: after reading the 16-byte file to its end the EndOfFile
flag is set; the in-range `Seek(12)` (12 lies in the buffered block's range
[12, 16)) performs no driver I/O but changes the flags as well — it clears
EndOfFile — so it does not change `positionInBuffer` alone. -/
theorem C7_counterexample :
    exAtEof16.positionInFile ≤ 12 ∧
    12 < exAtEof16.positionInFile + exAtEof16.blockSize ∧
    (File.Seek exDrv exAtEof16 12 20).isSome = true ∧
    exSeekBack.evs = [] ∧
    exSeekBack.st.flags ≠ exAtEof16.flags := by decide

/-- C7 (amended): for a target offset inside the currently buffered block's
range, Seek performs no driver I/O and no buffer access (empty event trace)
and changes only `positionInBuffer` and the EndOfFile flag (which it clears):
buffer contents, currentNode, blockInChunk and positionInFile are unchanged. -/
theorem C7_in_range_seek (drv : IFsDriver) (f : File) (pos fuel : Nat) (b : List Nat)
    (hbuf : f.blockBuffer = some b)
    (h1 : f.positionInFile ≤ pos) (h2 : pos < f.positionInFile + f.blockSize)
    (hw : f.positionInFile + f.blockSize < w64) (hbs : f.blockSize < w32) :
    File.Seek drv f pos fuel =
      some ⟨false, { f with
        positionInBuffer := pos - f.positionInFile,
        flags := { f.flags with eof := false } }, []⟩ := by
  unfold File.Seek
  rw [hbuf]
  dsimp only
  have hmod : (f.positionInFile + f.blockSize) % w64 = f.positionInFile + f.blockSize :=
    Nat.mod_eq_of_lt hw
  have hcond : ¬(pos ≥ (f.positionInFile + f.blockSize) % w64 ∨ pos < f.positionInFile) := by
    rw [hmod]
    push_neg
    exact ⟨by omega, h1⟩
  rw [if_neg hcond]
  have hs : (sub64 pos f.positionInFile) % w32 = pos - f.positionInFile := by
    unfold sub64
    have hp64 : f.positionInFile % w64 = f.positionInFile := Nat.mod_eq_of_lt (by omega)
    rw [hp64]
    have he : pos + w64 - f.positionInFile = (pos - f.positionInFile) + w64 := by omega
    rw [he, Nat.add_mod_right]
    have hlt : pos - f.positionInFile < w64 := by
      have := w32_lt_w64
      omega
    rw [Nat.mod_eq_of_lt hlt]
    exact Nat.mod_eq_of_lt (by omega)
  rw [hs]

/-- C7 witness: the amended in-range seek law applied to the concrete state
after one read of the 16-byte file, seeking to offset 2. -/
theorem C7_in_range_seek_witness :
    File.Seek exDrv exAfter1 2 20 =
      some ⟨false, { exAfter1 with
        positionInBuffer := 2 - exAfter1.positionInFile,
        flags := { exAfter1.flags with eof := false } }, []⟩ :=
  C7_in_range_seek exDrv exAfter1 2 20 [10, 20, 30, 40]
    (by decide) (by decide) (by decide) (by decide) (by decide)

end Mcucpp

namespace Mcucpp

lemma w64_ge_two_w32 : 2 * w32 ≤ w64 := by norm_num [w32, w64]

lemma sub64_small (a b : Nat) (hle : b ≤ a) (hb : b < w64) (hd : a - b < w32) :
    sub64 a b % w32 = a - b := by
  unfold sub64
  rw [Nat.mod_eq_of_lt hb]
  rw [show a + w64 - b = (a - b) + w64 by omega, Nat.add_mod_right]
  rw [Nat.mod_eq_of_lt (show a - b < w64 from lt_trans hd w32_lt_w64)]
  exact Nat.mod_eq_of_lt hd

lemma sub32_small (a b : Nat) (hle : b ≤ a) (ha : a < w32) : sub32 a b = a - b := by
  unfold sub32
  rw [Nat.mod_eq_of_lt (show b < w32 by omega)]
  rw [show a + w32 - b = (a - b) + w32 by omega, Nat.add_mod_right]
  exact Nat.mod_eq_of_lt (by omega)

lemma Read_bufInv (drv : IFsDriver) (f : File) (h : BufInv f) :
    BufInv (File.Read drv f).st := by
  obtain ⟨h1, h2, h3, h4⟩ := h
  unfold File.Read
  split
  · cases hb : f.blockBuffer with
    | none => exact ⟨h1, h2, h3, h4⟩
    | some b =>
      dsimp only
      split
      · refine ⟨h1, h2, ?_, ?_⟩ <;> simp [File.readFetch] <;> omega
      · split
        · exact ⟨h1, h2, h3, h4⟩
        · split
          · split
            · exact ⟨h1, h2, h3, h4⟩
            · refine ⟨h1, h2, ?_, ?_⟩ <;> simp [File.readFetch]
              · omega
              · exact Nat.mod_lt _ w64_pos
          · refine ⟨h1, h2, ?_, ?_⟩ <;> simp [File.readFetch]
            · omega
            · exact Nat.mod_lt _ w64_pos
  · refine ⟨h1, h2, ?_, ?_⟩ <;> simp [File.readFetch] <;> omega

end Mcucpp

namespace Mcucpp

lemma bulkAdvance_inl (drv : IFsDriver) (f f1 : File) (ev : List Ev)
    (h : File.bulkAdvance drv f = Sum.inl (f1, ev)) :
    f1 = { f with flags := { f.flags with eof := true } } ∨
    f1 = { f with blockInChunk := 0, flags := { f.flags with eof := true } } := by
  unfold File.bulkAdvance at h
  dsimp only at h
  split at h
  · exact absurd h (by simp)
  · split at h
    · obtain ⟨h1, _⟩ := Prod.mk.inj (Sum.inl.inj h)
      exact Or.inl h1.symm
    · split at h
      · split at h
        · obtain ⟨h1, _⟩ := Prod.mk.inj (Sum.inl.inj h)
          exact Or.inr h1.symm
        · exact absurd h (by simp)
      · exact absurd h (by simp)

lemma bulkAdvance_inr (drv : IFsDriver) (f f1 : File) (ev : List Ev)
    (h : File.bulkAdvance drv f = Sum.inr (f1, ev)) :
    f1 = { f with current := f.firstNode, positionInFile := 0 } ∨
    f1 = { f with
      current := drv.nextChunk f.current, blockInChunk := 0,
      flags := { f.flags with eof := false },
      positionInFile := (f.positionInFile + f.blockSize) % w64 } ∨
    f1 = { f with
      blockInChunk := f.blockInChunk + 1,
      positionInFile := (f.positionInFile + f.blockSize) % w64 } := by
  unfold File.bulkAdvance at h
  dsimp only at h
  split at h
  · obtain ⟨h1, _⟩ := Prod.mk.inj (Sum.inr.inj h)
    exact Or.inl h1.symm
  · split at h
    · exact absurd h (by simp)
    · split at h
      · split at h
        · exact absurd h (by simp)
        · obtain ⟨h1, _⟩ := Prod.mk.inj (Sum.inr.inj h)
          exact Or.inr (Or.inl h1.symm)
      · obtain ⟨h1, _⟩ := Prod.mk.inj (Sum.inr.inj h)
        exact Or.inr (Or.inr h1.symm)

lemma readBufFinish_st (br : Nat) (dest : List Nat) (f : File) (evs : List Ev) :
    (File.readBufFinish br dest f evs).st = { f with flags := { f.flags with eof := true } } ∨
    (File.readBufFinish br dest f evs).st = f := by
  unfold File.readBufFinish
  split
  · exact Or.inl rfl
  · exact Or.inr rfl

lemma readBufLoop_bufInv (drv : IFsDriver) (btr : Nat) :
    ∀ fuel br dest f evs out, File.readBufLoop drv btr fuel br dest f evs = some out →
      BufInv f → BufInv out.st := by
  intro fuel
  induction fuel with
  | zero => intro br dest f evs out h; simp [File.readBufLoop] at h
  | succ n ih =>
    intro br dest f evs out h hf
    obtain ⟨h1, h2, h3, h4⟩ := hf
    unfold File.readBufLoop at h
    split at h
    · cases hadv : File.bulkAdvance drv f with
      | inl p =>
        obtain ⟨f1, ev⟩ := p
        rw [hadv] at h
        dsimp only at h
        injection h with h
        rcases bulkAdvance_inl drv f f1 ev hadv with h5 | h5 <;>
          rcases readBufFinish_st br dest f1 (evs ++ ev) with h6 | h6 <;>
          rw [← h, h6, h5] <;> exact ⟨h1, h2, h3, h4⟩
      | inr p =>
        obtain ⟨f1, ev⟩ := p
        rw [hadv] at h
        dsimp only at h
        refine ih _ _ _ _ _ h ?_
        have hm := min_le_right (btr - br) f.blockSize
        rcases bulkAdvance_inr drv f f1 ev hadv with h5 | h5 | h5 <;>
          subst h5 <;>
          unfold BufInv <;>
          dsimp only <;>
          refine ⟨h1, h2, ?_, ?_⟩
        · split <;> (try split) <;> omega
        · exact w64_pos
        · split <;> (try split) <;> omega
        · exact Nat.mod_lt _ w64_pos
        · split <;> (try split) <;> omega
        · exact Nat.mod_lt _ w64_pos
    · injection h with h
      rcases readBufFinish_st br dest f evs with h6 | h6 <;> rw [← h, h6] <;>
        exact ⟨h1, h2, h3, h4⟩

end Mcucpp

namespace Mcucpp

lemma seekLoop_inl (drv : IFsDriver) (pos : Nat) :
    ∀ fuel f evs f2 ev2, File.seekLoop drv pos fuel f evs = some (Sum.inl (f2, ev2)) →
      f.positionInFile < w64 →
      f2.positionInBuffer = f.positionInBuffer ∧ f2.blockSize = f.blockSize ∧
      f2.blockBuffer = f.blockBuffer ∧ f2.flags = f.flags ∧ f2.positionInFile < w64 := by
  intro fuel
  induction fuel with
  | zero => intro f evs f2 ev2 h; simp [File.seekLoop] at h
  | succ n ih =>
    intro f evs f2 ev2 h hf
    unfold File.seekLoop at h
    split at h
    · dsimp only at h
      split at h
      · obtain ⟨h1, _⟩ := Prod.mk.inj (Sum.inl.inj (Option.some.inj h))
        subst h1
        exact ⟨rfl, rfl, rfl, rfl, hf⟩
      · split at h
        · split at h
          · obtain ⟨h1, _⟩ := Prod.mk.inj (Sum.inl.inj (Option.some.inj h))
            subst h1
            exact ⟨rfl, rfl, rfl, rfl, hf⟩
          · obtain ⟨a1, a2, a3, a4, a5⟩ := ih _ _ _ _ h (Nat.mod_lt _ w64_pos)
            exact ⟨a1, a2, a3, a4, a5⟩
        · obtain ⟨a1, a2, a3, a4, a5⟩ := ih _ _ _ _ h (Nat.mod_lt _ w64_pos)
          exact ⟨a1, a2, a3, a4, a5⟩
    · exact absurd h (by simp)

lemma seekLoop_inr (drv : IFsDriver) (pos : Nat) :
    ∀ fuel f evs f2 ev2, File.seekLoop drv pos fuel f evs = some (Sum.inr (f2, ev2)) →
      f.positionInFile ≤ pos → f.positionInFile < w64 →
      f2.positionInBuffer = f.positionInBuffer ∧ f2.blockSize = f.blockSize ∧
      f2.blockBuffer = f.blockBuffer ∧ f2.flags = f.flags ∧
      f2.positionInFile ≤ pos ∧ f2.positionInFile < w64 ∧
      pos ≤ (f2.positionInFile + f2.blockSize) % w64 := by
  intro fuel
  induction fuel with
  | zero => intro f evs f2 ev2 h; simp [File.seekLoop] at h
  | succ n ih =>
    intro f evs f2 ev2 h hle hf
    unfold File.seekLoop at h
    split at h
    · rename_i hguard
      dsimp only at h
      split at h
      · exact absurd h (by simp)
      · split at h
        · split at h
          · exact absurd h (by simp)
          · obtain ⟨a1, a2, a3, a4, a5, a6, a7⟩ :=
              ih _ _ _ _ h (le_of_lt hguard) (Nat.mod_lt _ w64_pos)
            exact ⟨a1, a2, a3, a4, a5, a6, a7⟩
        · obtain ⟨a1, a2, a3, a4, a5, a6, a7⟩ :=
            ih _ _ _ _ h (le_of_lt hguard) (Nat.mod_lt _ w64_pos)
          exact ⟨a1, a2, a3, a4, a5, a6, a7⟩
    · rename_i hguard
      obtain ⟨h1, _⟩ := Prod.mk.inj (Sum.inr.inj (Option.some.inj h))
      subst h1
      exact ⟨rfl, rfl, rfl, rfl, hle, hf, by omega⟩

end Mcucpp

namespace Mcucpp

lemma pib_le_of_seek_exit (pif bs pos : Nat) (hle : pif ≤ pos) (hf : pif < w64)
    (hbs : bs < w32) (hexit : pos ≤ (pif + bs) % w64) :
    sub64 pos pif % w32 ≤ bs := by
  by_cases hw : pif + bs < w64
  · rw [Nat.mod_eq_of_lt hw] at hexit
    rw [sub64_small pos pif hle hf (by omega)]
    omega
  · exfalso
    push_neg at hw
    have h2 : (pif + bs) % w64 = pif + bs - w64 := by
      rw [Nat.mod_eq_sub_mod hw]
      apply Nat.mod_eq_of_lt
      have := w32_lt_w64
      omega
    rw [h2] at hexit
    have := w64_ge_two_w32
    omega

lemma Seek_bufInv (drv : IFsDriver) (f : File) (pos fuel : Nat) (out : SOut)
    (h : File.Seek drv f pos fuel = some out) (hf : BufInv f) : BufInv out.st := by
  obtain ⟨h1, h2, h3, h4⟩ := hf
  unfold File.Seek at h
  cases hb : f.blockBuffer with
  | none =>
    rw [hb] at h
    obtain rfl := Option.some.inj h
    exact ⟨h1, h2, h3, h4⟩
  | some b =>
    rw [hb] at h
    dsimp only at h
    split at h
    · rename_i hcond
      have hstart_le : (if pos < f.positionInFile
          then { f with current := f.firstNode, blockBuffer := some b, positionInFile := 0 }
          else f).positionInFile ≤ pos := by
        split
        · exact Nat.zero_le pos
        · rename_i hnlt
          omega
      have hstart_lt : (if pos < f.positionInFile
          then { f with current := f.firstNode, blockBuffer := some b, positionInFile := 0 }
          else f).positionInFile < w64 := by
        split
        · exact w64_pos
        · exact h4
      have hstart_pib : (if pos < f.positionInFile
          then { f with current := f.firstNode, blockBuffer := some b, positionInFile := 0 }
          else f).positionInBuffer = f.positionInBuffer := by split <;> rfl
      have hstart_bs : (if pos < f.positionInFile
          then { f with current := f.firstNode, blockBuffer := some b, positionInFile := 0 }
          else f).blockSize = f.blockSize := by split <;> rfl
      split at h
      · exact absurd h (by simp)
      · rename_i f2 ev2 heq
        obtain rfl := Option.some.inj h
        obtain ⟨a1, a2, _, _, a5⟩ := seekLoop_inl drv pos fuel _ _ _ _ heq hstart_lt
        rw [hstart_pib] at a1
        rw [hstart_bs] at a2
        exact ⟨by rw [a2]; exact h1, by rw [a2]; exact h2, by rw [a1, a2]; exact h3, a5⟩
      · rename_i f2 ev2 heq
        obtain rfl := Option.some.inj h
        obtain ⟨a1, a2, _, _, a5, a6, a7⟩ := seekLoop_inr drv pos fuel _ _ _ _ heq hstart_le hstart_lt
        rw [hstart_bs] at a2
        refine ⟨by rw [a2]; exact h1, by rw [a2]; exact h2, ?_, a6⟩
        dsimp only
        rw [a2] at a7 ⊢
        exact pib_le_of_seek_exit f2.positionInFile f.blockSize pos a5 a6 h2 a7
    · rename_i hcond
      push_neg at hcond
      obtain ⟨hc1, hc2⟩ := hcond
      obtain rfl := Option.some.inj h
      refine ⟨h1, h2, ?_, h4⟩
      dsimp only
      exact pib_le_of_seek_exit f.positionInFile f.blockSize pos hc2 h4 h2 (le_of_lt hc1)

lemma ReadBuf_bufInv (drv : IFsDriver) (f : File) (n fuel : Nat) (out : BOut)
    (h : File.ReadBuf drv f n fuel = some out) (hf : BufInv f) : BufInv out.st := by
  obtain ⟨h1, h2, h3, h4⟩ := hf
  unfold File.ReadBuf at h
  cases hb : f.blockBuffer with
  | none =>
    rw [hb] at h
    obtain rfl := Option.some.inj h
    exact ⟨h1, h2, h3, h4⟩
  | some b =>
    rw [hb] at h
    dsimp only at h
    refine readBufLoop_bufInv drv n fuel _ _ _ _ _ h ?_
    refine ⟨h1, h2, ?_, h4⟩
    dsimp only
    rw [sub32_small f.blockSize f.positionInBuffer h3 h2]
    split <;> split <;> omega

lemma Step_bufInv (drv : IFsDriver) (f f1 : File) (hs : Step drv f f1) (hf : BufInv f) :
    BufInv f1 := by
  cases hs with
  | read => exact Read_bufInv drv f hf
  | readBuf n fuel out h => exact ReadBuf_bufInv drv f n fuel out h hf
  | seek pos fuel out h => exact Seek_bufInv drv f pos fuel out h hf
  | flushOp => exact hf

lemma reach_bufInv (drv : IFsDriver) (s0 s : File) (h : ReachableFrom drv s0 s)
    (h0 : BufInv s0) : BufInv s := by
  induction h with
  | refl => exact h0
  | tail _ hstep ih => exact Step_bufInv drv _ _ hstep ih

end Mcucpp

namespace Mcucpp

/-- C8 counterexample: from the freshly opened 2-byte file, three single-byte
Reads reach a state whose absolute read position
`positionInFile + positionInBuffer` is 3, exceeding the file size 2 — the
third Read keeps serving bytes of the buffered block beyond the declared
size. -/
theorem C8_counterexample :
    ReachableFrom exDrv exFile2 exOverrun ∧
    exOverrun.size < exOverrun.positionInBuffer + exOverrun.positionInFile ∧
    exOverrun.size < (exOverrun.positionInBuffer + exOverrun.positionInFile) % w64 := by
  refine ⟨?_, by decide, by decide⟩
  refine Relation.ReflTransGen.head (Step.read _) ?_
  refine Relation.ReflTransGen.head (Step.read _) ?_
  refine Relation.ReflTransGen.head (Step.read _) ?_
  exact Relation.ReflTransGen.refl

/-- C8 (amended): in every state reachable from a successfully opened file by
Read, bulk Read, Seek and Flush, the cursor `positionInBuffer` is at most
`blockSize`, so the absolute read position `positionInFile + positionInBuffer`
never exceeds `positionInFile + blockSize` — the end of the buffered block —
though it can exceed `size`. -/
theorem C8_position_bound (drv : IFsDriver) (node size : Nat) (s : File)
    (hbs1 : 1 ≤ drv.blockSize) (hbs2 : drv.blockSize < w32)
    (h : ReachableFrom drv (File.mkBound drv node size true) s) :
    s.positionInBuffer + s.positionInFile ≤ s.positionInFile + s.blockSize := by
  have hinv : BufInv (File.mkBound drv node size true) := by
    refine ⟨hbs1, hbs2, le_refl _, ?_⟩
    have := w64_pos
    simp only [File.mkBound]
    omega
  obtain ⟨_, _, h3, _⟩ := reach_bufInv drv _ s h hinv
  omega

/-- C8 witness: the bound applied to the freshly opened 2-byte file itself
(reachable by the empty operation sequence). -/
theorem C8_position_bound_witness :
    exFile2.positionInBuffer + exFile2.positionInFile ≤
      exFile2.positionInFile + exFile2.blockSize :=
  C8_position_bound exDrv 1 2 exFile2 (by decide) (by decide) Relation.ReflTransGen.refl

end Mcucpp

namespace Mcucpp

lemma evsOk_append (bs : Nat) (a b : List Ev) :
    evsOk bs (a ++ b) = (evsOk bs a && evsOk bs b) := by
  simp [evsOk, List.all_append]

lemma noWrites_append (a b : List Ev) :
    noWrites (a ++ b) = (noWrites a && noWrites b) := by
  simp [noWrites, List.all_append]

lemma Flush_evsOk (drv : IFsDriver) (f : File) :
    evsOk f.blockSize (File.Flush drv f) = true := by
  unfold File.Flush
  split
  · rfl
  · split
    · split
      · simp [evsOk, Ev.inBounds]
      · simp [evsOk, Ev.inBounds]
    · rfl

lemma Flush_noWrites (drv : IFsDriver) (f : File) (hw : f.flags.writable = false) :
    noWrites (File.Flush drv f) = true := by
  unfold File.Flush
  split
  · rfl
  · split
    · split
      · rename_i hcond
        rw [Bool.and_eq_true, Bool.and_eq_true] at hcond
        rw [hw] at hcond
        exact absurd hcond.2 (by simp)
      · simp [noWrites, Ev.isNotWrite]
    · rfl

lemma Flush_of_not_eoc (drv : IFsDriver) (f : File) (h : drv.eofNode f.current = false) :
    File.Flush drv f = [] ∨ File.Flush drv f = [Ev.drvEndOfFile f.current] := by
  unfold File.Flush
  split
  · exact Or.inl rfl
  · split
    · split
      · rename_i hcond
        rw [Bool.and_eq_true, Bool.and_eq_true] at hcond
        rw [h] at hcond
        exact absurd hcond.1.1 (by simp)
      · exact Or.inr rfl
    · exact Or.inl rfl

lemma readFetch_evs (f : File) (buf : List Nat) (evs : List Ev) :
    (File.readFetch f buf evs).evs = evs ++ [Ev.bufRange f.positionInBuffer 1] := rfl

lemma readFetch_writable (f : File) (buf : List Nat) (evs : List Ev) :
    (File.readFetch f buf evs).st.flags.writable = f.flags.writable := by
  unfold File.readFetch
  dsimp only
  split <;> rfl

end Mcucpp

namespace Mcucpp

lemma Read_evsOk (drv : IFsDriver) (f : File) (hbs : 1 ≤ f.blockSize)
    (hpib : f.positionInBuffer ≤ f.blockSize) :
    evsOk f.blockSize (File.Read drv f).evs = true := by
  have hfl := Flush_evsOk drv f
  unfold File.Read
  split
  · cases hb : f.blockBuffer with
    | none => rfl
    | some b =>
      dsimp only
      split
      · rw [readFetch_evs]
        simp only [evsOk_append, hfl, Bool.and_eq_true]
        repeat' apply And.intro
        all_goals simp [evsOk, Ev.inBounds]
        all_goals omega
      · split
        · simp [evsOk, Ev.inBounds]
        · split
          · split
            · simp only [evsOk_append, hfl, Bool.and_eq_true]
              repeat' apply And.intro
              all_goals simp [evsOk, Ev.inBounds, hfl]
            · rw [readFetch_evs]
              simp only [evsOk_append, hfl, Bool.and_eq_true]
              repeat' apply And.intro
              all_goals simp [evsOk, Ev.inBounds, hfl]
              all_goals omega
          · rw [readFetch_evs]
            simp only [evsOk_append, hfl, Bool.and_eq_true]
            repeat' apply And.intro
            all_goals simp [evsOk, Ev.inBounds, hfl]
            all_goals omega
  · rename_i hlt
    rw [readFetch_evs]
    simp only [evsOk_append, Bool.and_eq_true]
    refine ⟨rfl, ?_⟩
    simp [evsOk, Ev.inBounds]
    omega

lemma Read_noWrites (drv : IFsDriver) (f : File) (hw : f.flags.writable = false) :
    noWrites (File.Read drv f).evs = true := by
  have hfl := Flush_noWrites drv f hw
  unfold File.Read
  split
  · cases hb : f.blockBuffer with
    | none => rfl
    | some b =>
      dsimp only
      split
      · rw [readFetch_evs]
        simp [noWrites_append, noWrites, Ev.isNotWrite]
      · split
        · simp [noWrites, Ev.isNotWrite]
        · split
          · split
            · simp only [noWrites_append, hfl, Bool.and_eq_true]
              repeat' apply And.intro
              all_goals simp [noWrites, Ev.isNotWrite, hfl]
            · rw [readFetch_evs]
              simp only [noWrites_append, hfl, Bool.and_eq_true]
              repeat' apply And.intro
              all_goals simp [noWrites, Ev.isNotWrite, hfl]
          · rw [readFetch_evs]
            simp only [noWrites_append, hfl, Bool.and_eq_true]
            repeat' apply And.intro
            all_goals simp [noWrites, Ev.isNotWrite, hfl]
  · rw [readFetch_evs]
    simp [noWrites_append, noWrites, Ev.isNotWrite]

lemma Read_writable (drv : IFsDriver) (f : File) :
    (File.Read drv f).st.flags.writable = f.flags.writable := by
  unfold File.Read
  split
  · cases hb : f.blockBuffer with
    | none => rfl
    | some b =>
      dsimp only
      split
      · rw [readFetch_writable]
      · split
        · rfl
        · split
          · split
            · rfl
            · rw [readFetch_writable]
          · rw [readFetch_writable]
  · rw [readFetch_writable]

lemma Read_refill_access (drv : IFsDriver) (f : File)
    (hpib : f.positionInBuffer ≥ f.blockSize)
    (hx : ∃ i l, Ev.bufRange i l ∈ (File.Read drv f).evs ∧ 0 < l) :
    ∃ a, Ev.drvReadBlock a ∈ (File.Read drv f).evs := by
  obtain ⟨i, l, hmem, hl⟩ := hx
  unfold File.Read at hmem ⊢
  rw [if_pos hpib] at hmem ⊢
  cases hb : f.blockBuffer with
  | none =>
    rw [hb] at hmem
    exact absurd hmem (by simp)
  | some b =>
    rw [hb] at hmem
    dsimp only at hmem ⊢
    by_cases hc : f.current = 0
    · rw [if_pos hc] at hmem ⊢
      exact ⟨f.firstNode + f.blockInChunk, by rw [readFetch_evs]; simp⟩
    · rw [if_neg hc] at hmem ⊢
      by_cases he : drv.eofNode f.current = true
      · rw [if_pos he] at hmem
        exact absurd hmem (by simp)
      · rw [if_neg he] at hmem ⊢
        by_cases hbp : f.blockInChunk + 1 ≥ drv.blocksPerNode f.current
        · rw [if_pos hbp] at hmem ⊢
          by_cases hn : drv.eofNode (drv.nextChunk f.current) = true
          · rw [if_pos hn] at hmem
            rcases Flush_of_not_eoc drv f (Bool.not_eq_true _ ▸ he) with hfe | hfe <;>
              rw [hfe] at hmem <;> exact absurd hmem (by simp)
          · rw [if_neg hn] at hmem ⊢
            exact ⟨drv.nextChunk f.current + 0, by rw [readFetch_evs]; simp⟩
        · rw [if_neg hbp] at hmem ⊢
          exact ⟨f.current + (f.blockInChunk + 1), by rw [readFetch_evs]; simp⟩

end Mcucpp

namespace Mcucpp

lemma readBufFinish_evs (br : Nat) (dest : List Nat) (f : File) (evs : List Ev) :
    (File.readBufFinish br dest f evs).evs = evs := by
  unfold File.readBufFinish
  split <;> rfl

lemma readBufFinish_writable (br : Nat) (dest : List Nat) (f : File) (evs : List Ev) :
    (File.readBufFinish br dest f evs).st.flags.writable = f.flags.writable := by
  unfold File.readBufFinish
  split <;> rfl

lemma readBufFinish_bs (br : Nat) (dest : List Nat) (f : File) (evs : List Ev) :
    (File.readBufFinish br dest f evs).st.blockSize = f.blockSize := by
  unfold File.readBufFinish
  split <;> rfl

lemma evsOk_three (bs a x y : Nat) (hx : x ≤ bs) (hy : y ≤ bs) :
    evsOk bs [Ev.drvReadBlock a, Ev.bufRange 0 x, Ev.bufRange 0 y] = true := by
  simp [evsOk, Ev.inBounds]
  omega

lemma bulkAdvance_evs (drv : IFsDriver) (f : File) (f1 : File) (ev : List Ev)
    (hd : File.bulkAdvance drv f = Sum.inl (f1, ev) ∨
          File.bulkAdvance drv f = Sum.inr (f1, ev)) :
    evsOk f.blockSize ev = true ∧
    (f.flags.writable = false → noWrites ev = true) ∧
    f1.blockSize = f.blockSize ∧ f1.flags.writable = f.flags.writable := by
  have hfe := Flush_evsOk drv f
  unfold File.bulkAdvance at hd
  dsimp only at hd
  split at hd
  · rcases hd with hd | hd
    · exact absurd hd (by simp)
    · obtain ⟨hf1, hev⟩ := Prod.mk.inj (Sum.inr.inj hd)
      subst hf1; subst hev
      exact ⟨rfl, fun _ => rfl, rfl, rfl⟩
  · split at hd
    · rcases hd with hd | hd
      · obtain ⟨hf1, hev⟩ := Prod.mk.inj (Sum.inl.inj hd)
        subst hf1; subst hev
        exact ⟨rfl, fun _ => rfl, rfl, rfl⟩
      · exact absurd hd (by simp)
    · split at hd
      · split at hd
        · rcases hd with hd | hd
          · obtain ⟨hf1, hev⟩ := Prod.mk.inj (Sum.inl.inj hd)
            subst hf1; subst hev
            refine ⟨?_, ?_, rfl, rfl⟩
            · simp only [evsOk_append, hfe, Bool.and_eq_true]
              repeat' apply And.intro
              all_goals simp [evsOk, Ev.inBounds]
            · intro hw
              simp only [noWrites_append, Flush_noWrites drv f hw, Bool.and_eq_true]
              repeat' apply And.intro
              all_goals simp [noWrites, Ev.isNotWrite]
          · exact absurd hd (by simp)
        · rcases hd with hd | hd
          · exact absurd hd (by simp)
          · obtain ⟨hf1, hev⟩ := Prod.mk.inj (Sum.inr.inj hd)
            subst hf1; subst hev
            refine ⟨?_, ?_, rfl, rfl⟩
            · simp only [evsOk_append, hfe, Bool.and_eq_true]
              repeat' apply And.intro
              all_goals simp [evsOk, Ev.inBounds]
            · intro hw
              simp only [noWrites_append, Flush_noWrites drv f hw, Bool.and_eq_true]
              repeat' apply And.intro
              all_goals simp [noWrites, Ev.isNotWrite]
      · rcases hd with hd | hd
        · exact absurd hd (by simp)
        · obtain ⟨hf1, hev⟩ := Prod.mk.inj (Sum.inr.inj hd)
          subst hf1; subst hev
          refine ⟨?_, ?_, rfl, rfl⟩
          · simp only [evsOk_append, hfe, Bool.and_eq_true]
            repeat' apply And.intro
            all_goals simp [evsOk, Ev.inBounds]
          · intro hw
            simp only [noWrites_append, Flush_noWrites drv f hw, Bool.and_eq_true]
            repeat' apply And.intro
            all_goals simp [noWrites, Ev.isNotWrite]

lemma readBufLoop_evs (drv : IFsDriver) (btr bs : Nat) :
    ∀ fuel br dest f evs out, File.readBufLoop drv btr fuel br dest f evs = some out →
      f.blockSize = bs →
      (evsOk bs evs = true → evsOk bs out.evs = true) ∧
      (f.flags.writable = false → noWrites evs = true → noWrites out.evs = true) ∧
      out.st.flags.writable = f.flags.writable ∧ out.st.blockSize = bs := by
  intro fuel
  induction fuel with
  | zero => intro br dest f evs out h; simp [File.readBufLoop] at h
  | succ n ih =>
    intro br dest f evs out h hbs
    unfold File.readBufLoop at h
    split at h
    · cases hadv : File.bulkAdvance drv f with
      | inl p =>
        obtain ⟨f1, ev⟩ := p
        rw [hadv] at h
        dsimp only at h
        injection h with h
        obtain ⟨he1, he2, he3, he4⟩ := bulkAdvance_evs drv f f1 ev (Or.inl hadv)
        subst h
        rw [readBufFinish_evs, readBufFinish_writable, readBufFinish_bs]
        refine ⟨?_, ?_, he4, by rw [he3, hbs]⟩
        · intro hok
          rw [evsOk_append]
          rw [hbs] at he1
          simp [hok, he1]
        · intro hw hnw
          rw [noWrites_append]
          simp [hnw, he2 hw]
      | inr p =>
        obtain ⟨f1, ev⟩ := p
        rw [hadv] at h
        dsimp only at h
        obtain ⟨he1, he2, he3, he4⟩ := bulkAdvance_evs drv f f1 ev (Or.inr hadv)
        have hcs : (if min (btr - br) f1.blockSize >
              (if f1.positionInFile < f1.size then (f1.size - f1.positionInFile) % w32 else 0)
            then (if f1.positionInFile < f1.size then (f1.size - f1.positionInFile) % w32 else 0)
            else min (btr - br) f1.blockSize) ≤ bs := by
          have hm := min_le_right (btr - br) f1.blockSize
          rw [he3, hbs] at hm
          split <;> split <;> omega
        obtain ⟨ih1, ih2, ih3, ih4⟩ := ih _ _ _ _ _ h (by
          dsimp only
          rw [he3, hbs])
        refine ⟨?_, ?_, ?_, ih4⟩
        · intro hok
          refine ih1 ?_
          simp only [evsOk_append, Bool.and_eq_true]
          rw [hbs] at he1
          refine ⟨⟨hok, he1⟩, ?_⟩
          exact evsOk_three bs _ _ _ (le_of_eq (by rw [he3, hbs])) hcs
        · intro hw hnw
          refine ih2 (by
            dsimp only
            split_ifs <;> simp [he4, hw]) ?_
          simp only [noWrites_append, Bool.and_eq_true]
          exact ⟨⟨hnw, he2 hw⟩, by simp [noWrites, Ev.isNotWrite]⟩
        · rw [ih3]
          dsimp only
          split_ifs <;> simp [he4]
    · injection h with h
      subst h
      rw [readBufFinish_evs, readBufFinish_writable, readBufFinish_bs]
      exact ⟨fun hok => hok, fun _ hnw => hnw, rfl, hbs⟩

end Mcucpp

namespace Mcucpp

lemma ReadBuf_evsOk (drv : IFsDriver) (f : File) (n fuel : Nat) (out : BOut)
    (h : File.ReadBuf drv f n fuel = some out) (hf : BufInv f) :
    evsOk f.blockSize out.evs = true := by
  obtain ⟨h1, h2, h3, h4⟩ := hf
  unfold File.ReadBuf at h
  cases hb : f.blockBuffer with
  | none =>
    rw [hb] at h
    obtain rfl := Option.some.inj h
    rfl
  | some b =>
    rw [hb] at h
    dsimp only at h
    obtain ⟨ih1, _, _, _⟩ := readBufLoop_evs drv n f.blockSize fuel _ _ _ _ _ h rfl
    refine ih1 ?_
    simp only [evsOk, List.all_cons, List.all_nil, Bool.and_true]
    simp only [Ev.inBounds, decide_eq_true_eq]
    rw [sub32_small f.blockSize f.positionInBuffer h3 h2]
    split <;> split <;> omega

lemma ReadBuf_noWrites (drv : IFsDriver) (f : File) (n fuel : Nat) (out : BOut)
    (h : File.ReadBuf drv f n fuel = some out) (hw : f.flags.writable = false) :
    noWrites out.evs = true := by
  unfold File.ReadBuf at h
  cases hb : f.blockBuffer with
  | none =>
    rw [hb] at h
    obtain rfl := Option.some.inj h
    rfl
  | some b =>
    rw [hb] at h
    dsimp only at h
    obtain ⟨_, ih2, _, _⟩ := readBufLoop_evs drv n f.blockSize fuel _ _ _ _ _ h rfl
    exact ih2 hw rfl

lemma ReadBuf_writable (drv : IFsDriver) (f : File) (n fuel : Nat) (out : BOut)
    (h : File.ReadBuf drv f n fuel = some out) :
    out.st.flags.writable = f.flags.writable := by
  unfold File.ReadBuf at h
  cases hb : f.blockBuffer with
  | none =>
    rw [hb] at h
    obtain rfl := Option.some.inj h
    rfl
  | some b =>
    rw [hb] at h
    dsimp only at h
    obtain ⟨_, _, ih3, _⟩ := readBufLoop_evs drv n f.blockSize fuel _ _ _ _ _ h rfl
    exact ih3

lemma seekLoop_all (drv : IFsDriver) (pos : Nat) (p : Ev → Bool)
    (hp1 : ∀ m, p (Ev.drvEndOfFile m) = true)
    (hp2 : ∀ m, p (Ev.drvGetBlocksPerNode m) = true)
    (hp3 : ∀ m, p (Ev.drvGetNextChunk m) = true) :
    ∀ fuel f evs res, File.seekLoop drv pos fuel f evs = some res →
      evs.all p = true → (Sum.elim Prod.snd Prod.snd res).all p = true := by
  intro fuel
  induction fuel with
  | zero => intro f evs res h; simp [File.seekLoop] at h
  | succ n ih =>
    intro f evs res h hall
    unfold File.seekLoop at h
    split at h
    · dsimp only at h
      split at h
      · obtain rfl := Option.some.inj h
        simp [List.all_append, hall, hp1]
      · split at h
        · split at h
          · obtain rfl := Option.some.inj h
            simp [List.all_append, hall, hp1, hp2, hp3]
          · exact ih _ _ _ h (by simp [List.all_append, hall, hp1, hp2, hp3])
        · exact ih _ _ _ h (by simp [List.all_append, hall, hp1, hp2, hp3])
    · obtain rfl := Option.some.inj h
      exact hall

end Mcucpp

namespace Mcucpp

lemma seekLoop_st (drv : IFsDriver) (pos : Nat) :
    ∀ fuel f evs res, File.seekLoop drv pos fuel f evs = some res →
      (Sum.elim Prod.fst Prod.fst res).blockSize = f.blockSize ∧
      (Sum.elim Prod.fst Prod.fst res).flags = f.flags ∧
      (Sum.elim Prod.fst Prod.fst res).positionInBuffer = f.positionInBuffer ∧
      (Sum.elim Prod.fst Prod.fst res).blockBuffer = f.blockBuffer := by
  intro fuel
  induction fuel with
  | zero => intro f evs res h; simp [File.seekLoop] at h
  | succ n ih =>
    intro f evs res h
    unfold File.seekLoop at h
    split at h
    · dsimp only at h
      split at h
      · obtain rfl := Option.some.inj h
        exact ⟨rfl, rfl, rfl, rfl⟩
      · split at h
        · split at h
          · obtain rfl := Option.some.inj h
            exact ⟨rfl, rfl, rfl, rfl⟩
          · have hx := ih _ _ _ h
            exact hx
        · have hx := ih _ _ _ h
          exact hx
    · obtain rfl := Option.some.inj h
      exact ⟨rfl, rfl, rfl, rfl⟩

lemma Seek_evsOk (drv : IFsDriver) (f : File) (pos fuel : Nat) (out : SOut)
    (h : File.Seek drv f pos fuel = some out) :
    evsOk f.blockSize out.evs = true := by
  unfold File.Seek at h
  cases hb : f.blockBuffer with
  | none =>
    rw [hb] at h
    obtain rfl := Option.some.inj h
    rfl
  | some b =>
    rw [hb] at h
    dsimp only at h
    split at h
    · have hbs1 : (if pos < f.positionInFile
          then { f with current := f.firstNode, blockBuffer := some b, positionInFile := 0 }
          else f).blockSize = f.blockSize := by split <;> rfl
      have hfl : (File.Flush drv (if pos < f.positionInFile
          then { f with current := f.firstNode, blockBuffer := some b, positionInFile := 0 }
          else f)).all (Ev.inBounds f.blockSize) = true := by
        have := Flush_evsOk drv (if pos < f.positionInFile
          then { f with current := f.firstNode, blockBuffer := some b, positionInFile := 0 }
          else f)
        rw [hbs1] at this
        exact this
      split at h
      · exact absurd h (by simp)
      · rename_i f2 ev2 heq
        obtain rfl := Option.some.inj h
        have := seekLoop_all drv pos (Ev.inBounds f.blockSize)
          (fun m => rfl) (fun m => rfl) (fun m => rfl) fuel _ _ _ heq hfl
        exact this
      · rename_i f2 ev2 heq
        obtain rfl := Option.some.inj h
        have hall := seekLoop_all drv pos (Ev.inBounds f.blockSize)
          (fun m => rfl) (fun m => rfl) (fun m => rfl) fuel _ _ _ heq hfl
        have hst := seekLoop_st drv pos fuel _ _ _ heq
        simp only [Sum.elim_inl, Sum.elim_inr] at hst
        rw [hbs1] at hst
        dsimp only
        rw [evsOk_append]
        simp only [Bool.and_eq_true]
        refine ⟨hall, ?_⟩
        simp only [evsOk, List.all_cons, List.all_nil, Bool.and_true, Bool.and_eq_true]
        refine ⟨rfl, ?_⟩
        simp only [Ev.inBounds, decide_eq_true_eq]
        rw [hst.1]
        omega
    · obtain rfl := Option.some.inj h
      rfl

lemma Seek_noWrites (drv : IFsDriver) (f : File) (pos fuel : Nat) (out : SOut)
    (h : File.Seek drv f pos fuel = some out) (hw : f.flags.writable = false) :
    noWrites out.evs = true := by
  unfold File.Seek at h
  cases hb : f.blockBuffer with
  | none =>
    rw [hb] at h
    obtain rfl := Option.some.inj h
    rfl
  | some b =>
    rw [hb] at h
    dsimp only at h
    split at h
    · have hw1 : (if pos < f.positionInFile
          then { f with current := f.firstNode, blockBuffer := some b, positionInFile := 0 }
          else f).flags.writable = false := by
        split <;> exact hw
      have hfl : (File.Flush drv (if pos < f.positionInFile
          then { f with current := f.firstNode, blockBuffer := some b, positionInFile := 0 }
          else f)).all Ev.isNotWrite = true :=
        Flush_noWrites drv _ hw1
      split at h
      · exact absurd h (by simp)
      · rename_i f2 ev2 heq
        obtain rfl := Option.some.inj h
        exact seekLoop_all drv pos Ev.isNotWrite
          (fun m => rfl) (fun m => rfl) (fun m => rfl) fuel _ _ _ heq hfl
      · rename_i f2 ev2 heq
        obtain rfl := Option.some.inj h
        have hall := seekLoop_all drv pos Ev.isNotWrite
          (fun m => rfl) (fun m => rfl) (fun m => rfl) fuel _ _ _ heq hfl
        dsimp only
        rw [noWrites_append]
        simp only [Bool.and_eq_true]
        exact ⟨hall, by simp [noWrites, Ev.isNotWrite]⟩
    · obtain rfl := Option.some.inj h
      rfl

lemma Seek_writable (drv : IFsDriver) (f : File) (pos fuel : Nat) (out : SOut)
    (h : File.Seek drv f pos fuel = some out) :
    out.st.flags.writable = f.flags.writable := by
  unfold File.Seek at h
  cases hb : f.blockBuffer with
  | none =>
    rw [hb] at h
    obtain rfl := Option.some.inj h
    rfl
  | some b =>
    rw [hb] at h
    dsimp only at h
    split at h
    · have hfl1 : (if pos < f.positionInFile
          then { f with current := f.firstNode, blockBuffer := some b, positionInFile := 0 }
          else f).flags = f.flags := by split <;> rfl
      split at h
      · exact absurd h (by simp)
      · rename_i f2 ev2 heq
        obtain rfl := Option.some.inj h
        have hst := seekLoop_st drv pos fuel _ _ _ heq
        simp only [Sum.elim_inl, Sum.elim_inr] at hst
        rw [hfl1] at hst
        dsimp only
        rw [hst.2.1]
      · rename_i f2 ev2 heq
        obtain rfl := Option.some.inj h
        have hst := seekLoop_st drv pos fuel _ _ _ heq
        simp only [Sum.elim_inl, Sum.elim_inr] at hst
        rw [hfl1] at hst
        dsimp only
        rw [hst.2.1]
    · obtain rfl := Option.some.inj h
      rfl

lemma Open_writable (drv : IFsDriver) (f : File) (rn rs : Nat) (aok : Bool) :
    (File.Open drv f rn rs aok).2.flags.writable = f.flags.writable := by
  unfold File.Open
  dsimp only
  split <;> rename_i heq
  · rfl
  · split <;> rfl

lemma mkBound_writable (drv : IFsDriver) (node size : Nat) (aok : Bool) :
    (File.mkBound drv node size aok).flags.writable = false := by
  unfold File.mkBound
  dsimp only
  split <;> split <;> rfl

lemma mkOpen_writable (drv : IFsDriver) (jb : Option (List Nat)) (jf rn rs : Nat) (aok : Bool) :
    (File.mkOpen drv jb jf rn rs aok).2.flags.writable = false := by
  unfold File.mkOpen
  rw [Open_writable]
  rfl

end Mcucpp

namespace Mcucpp

/-- C9: in every state reachable from a successfully opened file,
`positionInBuffer` is at most `blockSize`; every buffer access performed by a
single-byte Read, a bulk Read, a Seek or a Flush from such a state stays at
indices strictly below `blockSize` (no out-of-bounds access); and when
`positionInBuffer` equals `blockSize` a single-byte Read touches the buffer
only if it has refilled it through the driver ReadBlock. -/
theorem C9_buffer_access_safety (drv : IFsDriver) (node size : Nat) (s : File)
    (hbs1 : 1 ≤ drv.blockSize) (hbs2 : drv.blockSize < w32)
    (h : ReachableFrom drv (File.mkBound drv node size true) s) :
    s.positionInBuffer ≤ s.blockSize ∧
    evsOk s.blockSize (File.Read drv s).evs = true ∧
    evsOk s.blockSize (File.Flush drv s) = true ∧
    (∀ n fuel out, File.ReadBuf drv s n fuel = some out → evsOk s.blockSize out.evs = true) ∧
    (∀ pos fuel out, File.Seek drv s pos fuel = some out → evsOk s.blockSize out.evs = true) ∧
    (s.positionInBuffer = s.blockSize →
      (∃ i l, Ev.bufRange i l ∈ (File.Read drv s).evs ∧ 0 < l) →
      ∃ a, Ev.drvReadBlock a ∈ (File.Read drv s).evs) := by
  have hinv : BufInv s := by
    refine reach_bufInv drv _ s h ⟨hbs1, hbs2, le_refl _, ?_⟩
    have := w64_pos
    simp only [File.mkBound]
    omega
  obtain ⟨h1, h2, h3, h4⟩ := hinv
  refine ⟨h3, Read_evsOk drv s h1 h3, Flush_evsOk drv s, ?_, ?_, ?_⟩
  · intro n fuel out hh
    exact ReadBuf_evsOk drv s n fuel out hh ⟨h1, h2, h3, h4⟩
  · intro pos fuel out hh
    exact Seek_evsOk drv s pos fuel out hh
  · intro hpe hx
    exact Read_refill_access drv s (ge_of_eq hpe) hx

/-- C9 witness: instantiated at the freshly opened 2-byte example file. -/
theorem C9_buffer_access_safety_witness :
    exFile2.positionInBuffer ≤ exFile2.blockSize :=
  (C9_buffer_access_safety exDrv 1 2 exFile2 (by decide) (by decide)
    Relation.ReflTransGen.refl).1

/-- C10: starting from any constructor and applying any sequence of public
operations, the Writable flag is never set, `Write(value)` returns false
without changing the state, and no operation's event trace contains a driver
WriteBlock — the file never mutates storage, and Flush's write-back branch is
unreachable. -/
theorem C10_never_writes (drv : IFsDriver) (s : File) (h : Reach10 drv s) :
    s.flags.writable = false ∧
    (∀ v, File.Write s v = (false, s)) ∧
    noWrites (File.Read drv s).evs = true ∧
    noWrites (File.Flush drv s) = true ∧
    noWrites (File.destruct drv s) = true ∧
    (∀ n fuel out, File.ReadBuf drv s n fuel = some out → noWrites out.evs = true) ∧
    (∀ pos fuel out, File.Seek drv s pos fuel = some out → noWrites out.evs = true) := by
  have hw : s.flags.writable = false := by
    obtain ⟨s0, hctor, hreach⟩ := h
    have h0 : s0.flags.writable = false := by
      rcases hctor with ⟨n, sz, a, rfl⟩ | rfl | ⟨jb, jf, rn, rs, a, rfl⟩
      · exact mkBound_writable drv n sz a
      · rfl
      · exact mkOpen_writable drv jb jf rn rs a
    clear hctor
    induction hreach with
    | refl => exact h0
    | tail _ hstep ih =>
      cases hstep with
      | read => rw [Read_writable]; exact ih
      | readBuf n fuel out hh => rw [ReadBuf_writable drv _ n fuel out hh]; exact ih
      | seek pos fuel out hh => rw [Seek_writable drv _ pos fuel out hh]; exact ih
      | flushOp => exact ih
      | write v => exact ih
      | openOp rn rs aok => rw [Open_writable]; exact ih
  refine ⟨hw, fun v => rfl, Read_noWrites drv s hw, Flush_noWrites drv s hw,
    Flush_noWrites drv s hw, ?_, ?_⟩
  · intro n fuel out hh
    exact ReadBuf_noWrites drv s n fuel out hh hw
  · intro pos fuel out hh
    exact Seek_noWrites drv s pos fuel out hh hw

/-- C10 witness: instantiated at the default-constructed file (reachable by
the empty operation sequence). -/
theorem C10_never_writes_witness : (File.mkDefault exDrv).flags.writable = false :=
  (C10_never_writes exDrv (File.mkDefault exDrv)
    ⟨File.mkDefault exDrv, Or.inr (Or.inl rfl), Relation.ReflTransGen.refl⟩).1

end Mcucpp

namespace Mcucpp

lemma readSeq_succ (drv : IFsDriver) :
    ∀ (n : Nat) (f : File), File.readSeq drv (n + 1) f =
      ((File.readSeq drv n f).1 ++ [(File.Read drv (File.readSeq drv n f).2).byte],
       (File.Read drv (File.readSeq drv n f).2).st) := by
  intro n
  induction n with
  | zero => intro f; rfl
  | succ m ih =>
    intro f
    rw [show File.readSeq drv (m + 1 + 1) f =
        ((File.Read drv f).byte :: (File.readSeq drv (m + 1) (File.Read drv f).st).1,
         (File.readSeq drv (m + 1) (File.Read drv f).st).2) from rfl]
    rw [ih ((File.Read drv f).st)]
    rw [show File.readSeq drv (m + 1) f =
        ((File.Read drv f).byte :: (File.readSeq drv m (File.Read drv f).st).1,
         (File.readSeq drv m (File.Read drv f).st).2) from rfl]
    rfl

lemma seqBase (drv : IFsDriver) (first size bpn : Nat) (hwf : ChainWF drv first size bpn) :
    (File.Read drv (File.mkBound drv first size true)).byte = specByteAt drv first bpn 0 ∧
    (File.Read drv (File.mkBound drv first size true)).st = seqStateOf drv first size bpn 1 := by
  have h1lt : (1 : Nat) < w64 := by
    have := w32_pos
    have := w32_lt_w64
    omega
  unfold File.mkBound
  dsimp only
  rw [if_neg hwf.first_ne]
  unfold File.Read
  rw [if_pos (le_refl drv.blockSize)]
  dsimp only
  rw [if_pos rfl]
  unfold File.readFetch
  dsimp only
  constructor
  · show (drv.readBlock (first + 0)).getD 0 0 = specByteAt drv first bpn 0
    simp [specByteAt, chainNode, Nat.zero_div, Nat.zero_mod]
  · unfold seqStateOf
    dsimp only
    rw [Nat.zero_div, Nat.zero_div, Nat.zero_mod]
    rw [Nat.mod_eq_of_lt h1lt]
    by_cases hs1 : size ≤ 1
    · simp [hs1, chainNode, FileFlagsNone]
    · simp [hs1, chainNode, FileFlagsNone]

end Mcucpp

namespace Mcucpp

lemma seqStepA (drv : IFsDriver) (first size bpn : Nat) (hwf : ChainWF drv first size bpn)
    (k : Nat) (hk : 1 ≤ k) (hlt : k < size)
    (hA : k - (k - 1) / drv.blockSize * drv.blockSize < drv.blockSize) :
    (File.Read drv (seqStateOf drv first size bpn k)).byte = specByteAt drv first bpn k ∧
    (File.Read drv (seqStateOf drv first size bpn k)).st = seqStateOf drv first size bpn (k + 1) := by
  have hbs := hwf.bs_pos
  have hsz32 := hwf.size_lt
  have h3264 := w32_lt_w64
  have hdm := Nat.div_add_mod (k - 1) drv.blockSize
  have hml := Nat.mod_lt (k - 1) hbs
  have hcomm : drv.blockSize * ((k - 1) / drv.blockSize)
      = (k - 1) / drv.blockSize * drv.blockSize := Nat.mul_comm _ _
  have hdivA := (Nat.div_mod_unique hbs
    (a := k) (d := (k - 1) / drv.blockSize)
    (c := k - (k - 1) / drv.blockSize * drv.blockSize)).mpr ⟨by omega, hA⟩
  unfold seqStateOf
  dsimp only
  rw [decide_eq_false (by omega : ¬ size ≤ k)]
  unfold File.Read
  rw [if_neg (by omega : ¬ k - (k - 1) / drv.blockSize * drv.blockSize ≥ drv.blockSize)]
  dsimp only
  unfold File.readFetch
  dsimp only
  constructor
  · unfold specByteAt
    dsimp only
    rw [hdivA.1, hdivA.2, Option.getD_some]
  · rw [Nat.add_sub_cancel, hdivA.1]
    rw [(by omega :
      k - (k - 1) / drv.blockSize * drv.blockSize + 1 +
        (k - 1) / drv.blockSize * drv.blockSize = k + 1)]
    rw [Nat.mod_eq_of_lt (by omega : k + 1 < w64)]
    rw [(by omega : k - (k - 1) / drv.blockSize * drv.blockSize + 1
      = k + 1 - (k - 1) / drv.blockSize * drv.blockSize)]
    by_cases hs1 : size ≤ k + 1
    · rw [if_pos hs1, decide_eq_true hs1]
    · rw [if_neg hs1, decide_eq_false hs1]

end Mcucpp

namespace Mcucpp

lemma seqStepB (drv : IFsDriver) (first size bpn : Nat) (hwf : ChainWF drv first size bpn)
    (k : Nat) (hk : 1 ≤ k) (hlt : k < size)
    (hB : k - (k - 1) / drv.blockSize * drv.blockSize ≥ drv.blockSize) :
    (File.Read drv (seqStateOf drv first size bpn k)).byte = specByteAt drv first bpn k ∧
    (File.Read drv (seqStateOf drv first size bpn k)).st = seqStateOf drv first size bpn (k + 1) := by
  have hbs := hwf.bs_pos
  have hBpos := hwf.bpn_pos
  have hsz32 := hwf.size_lt
  have h3264 := w32_lt_w64
  have hdm := Nat.div_add_mod (k - 1) drv.blockSize
  have hml := Nat.mod_lt (k - 1) hbs
  have hcomm : drv.blockSize * ((k - 1) / drv.blockSize)
      = (k - 1) / drv.blockSize * drv.blockSize := Nat.mul_comm _ _
  have hmulsucc : drv.blockSize * ((k - 1) / drv.blockSize + 1)
      = drv.blockSize * ((k - 1) / drv.blockSize) + drv.blockSize := Nat.mul_succ _ _
  have hdivB := (Nat.div_mod_unique hbs
    (a := k) (d := (k - 1) / drv.blockSize + 1) (c := 0)).mpr ⟨by omega, hbs⟩
  have hdm2 := Nat.div_add_mod ((k - 1) / drv.blockSize) bpn
  have hml2 := Nat.mod_lt ((k - 1) / drv.blockSize) hBpos
  have hq1 : (k - 1) / drv.blockSize / bpn * bpn ≤ (k - 1) / drv.blockSize :=
    Nat.div_mul_le_self _ _
  have hq2 : (k - 1) / drv.blockSize / bpn * bpn * drv.blockSize
      ≤ (k - 1) / drv.blockSize * drv.blockSize :=
    Nat.mul_le_mul_right _ hq1
  have h3 : (k - 1) / drv.blockSize / bpn * (bpn * drv.blockSize) < size := by
    rw [← Nat.mul_assoc]
    omega
  obtain ⟨hne, heoc, hbpn⟩ := hwf.nodes _ h3
  unfold seqStateOf
  dsimp only
  rw [decide_eq_false (by omega : ¬ size ≤ k)]
  unfold File.Read
  rw [if_pos hB]
  dsimp only
  rw [if_neg hne]
  rw [if_neg (by simp [heoc])]
  rw [hbpn]
  by_cases hhop : (k - 1) / drv.blockSize % bpn + 1 ≥ bpn
  · rw [if_pos hhop]
    have hmul3 : bpn * ((k - 1) / drv.blockSize / bpn + 1)
        = bpn * ((k - 1) / drv.blockSize / bpn) + bpn := Nat.mul_succ _ _
    have hdivB1 := (Nat.div_mod_unique hBpos
      (a := (k - 1) / drv.blockSize + 1)
      (d := (k - 1) / drv.blockSize / bpn + 1) (c := 0)).mpr ⟨by omega, hBpos⟩
    have hmulsz : ((k - 1) / drv.blockSize / bpn + 1) * (bpn * drv.blockSize) < size := by
      have e2 : ((k - 1) / drv.blockSize / bpn + 1) * bpn
          = (k - 1) / drv.blockSize / bpn * bpn + bpn := Nat.succ_mul _ _
      have e3 : bpn * ((k - 1) / drv.blockSize / bpn)
          = (k - 1) / drv.blockSize / bpn * bpn := Nat.mul_comm _ _
      have e1 : ((k - 1) / drv.blockSize / bpn + 1) * bpn = (k - 1) / drv.blockSize + 1 := by
        omega
      rw [← Nat.mul_assoc, e1, Nat.succ_mul]
      omega
    obtain ⟨_, heoc2, _⟩ := hwf.nodes _ hmulsz
    rw [show drv.nextChunk (chainNode drv first ((k - 1) / drv.blockSize / bpn))
      = chainNode drv first ((k - 1) / drv.blockSize / bpn + 1) from rfl]
    rw [if_neg (by simp [heoc2])]
    unfold File.readFetch
    dsimp only
    rw [Nat.mod_eq_of_lt (by omega :
      (k - 1) / drv.blockSize * drv.blockSize + drv.blockSize < w64)]
    constructor
    · unfold specByteAt
      dsimp only
      rw [hdivB.1, hdivB.2, hdivB1.1, hdivB1.2]
    · rw [Nat.add_sub_cancel, hdivB.1, hdivB1.1, hdivB1.2]
      rw [(by omega : 0 + 1 + ((k - 1) / drv.blockSize * drv.blockSize + drv.blockSize)
        = k + 1)]
      rw [Nat.mod_eq_of_lt (by omega : k + 1 < w64)]
      rw [Nat.succ_mul ((k - 1) / drv.blockSize) drv.blockSize]
      rw [(by omega : k + 1 - ((k - 1) / drv.blockSize * drv.blockSize + drv.blockSize) = 0 + 1)]
      by_cases hs1 : size ≤ k + 1
      · rw [if_pos hs1, decide_eq_true hs1]
      · rw [if_neg hs1, decide_eq_false hs1]
  · rw [if_neg hhop]
    have hdivB2 := (Nat.div_mod_unique hBpos
      (a := (k - 1) / drv.blockSize + 1)
      (d := (k - 1) / drv.blockSize / bpn)
      (c := (k - 1) / drv.blockSize % bpn + 1)).mpr ⟨by omega, by omega⟩
    unfold File.readFetch
    dsimp only
    rw [Nat.mod_eq_of_lt (by omega :
      (k - 1) / drv.blockSize * drv.blockSize + drv.blockSize < w64)]
    constructor
    · unfold specByteAt
      dsimp only
      rw [hdivB.1, hdivB.2, hdivB2.1, hdivB2.2]
    · rw [Nat.add_sub_cancel, hdivB.1, hdivB2.1, hdivB2.2]
      rw [(by omega : 0 + 1 + ((k - 1) / drv.blockSize * drv.blockSize + drv.blockSize)
        = k + 1)]
      rw [Nat.mod_eq_of_lt (by omega : k + 1 < w64)]
      rw [Nat.succ_mul ((k - 1) / drv.blockSize) drv.blockSize]
      rw [(by omega : k + 1 - ((k - 1) / drv.blockSize * drv.blockSize + drv.blockSize) = 0 + 1)]
      by_cases hs1 : size ≤ k + 1
      · rw [if_pos hs1, decide_eq_true hs1]
      · rw [if_neg hs1, decide_eq_false hs1]

end Mcucpp

namespace Mcucpp

lemma seqStep (drv : IFsDriver) (first size bpn : Nat) (hwf : ChainWF drv first size bpn)
    (k : Nat) (hk : 1 ≤ k) (hlt : k < size) :
    (File.Read drv (seqStateOf drv first size bpn k)).byte = specByteAt drv first bpn k ∧
    (File.Read drv (seqStateOf drv first size bpn k)).st = seqStateOf drv first size bpn (k + 1) := by
  by_cases hA : k - (k - 1) / drv.blockSize * drv.blockSize < drv.blockSize
  · exact seqStepA drv first size bpn hwf k hk hlt hA
  · exact seqStepB drv first size bpn hwf k hk hlt (by omega)

lemma readSeq_closed (drv : IFsDriver) (first size bpn : Nat)
    (hwf : ChainWF drv first size bpn) :
    ∀ k, 1 ≤ k → k ≤ size →
      (File.readSeq drv k (File.mkBound drv first size true)).1
        = (List.range k).map (specByteAt drv first bpn) ∧
      (File.readSeq drv k (File.mkBound drv first size true)).2
        = seqStateOf drv first size bpn k := by
  intro k
  induction k with
  | zero => intro h; omega
  | succ m ih =>
    intro _ hle
    by_cases hm : 1 ≤ m
    · obtain ⟨ihb, ihs⟩ := ih hm (by omega)
      rw [readSeq_succ]
      rw [ihb, ihs]
      obtain ⟨sb, ss⟩ := seqStep drv first size bpn hwf m hm (by omega)
      rw [sb, ss]
      constructor
      · rw [List.range_succ]
        simp
      · rfl
    · have hm0 : m = 0 := by omega
      subst hm0
      obtain ⟨sb, ss⟩ := seqBase drv first size bpn hwf
      constructor
      · show [(File.Read drv (File.mkBound drv first size true)).byte] = _
        rw [sb]
        rfl
      · show (File.Read drv (File.mkBound drv first size true)).st = _
        exact ss

/-- C4 (amended): on a well-formed chain, reading exactly `size` bytes from
offset 0 leaves EndOfFile true; reading only `size - 1` bytes leaves it
false; and one further single-byte Read() at that point returns the byte at
offset `size - 1` — the last byte of the file, not 0 — and then sets
EndOfFile. -/
theorem C4_eof_boundary (drv : IFsDriver) (first size bpn : Nat)
    (hwf : ChainWF drv first size bpn) :
    (File.readSeq drv (size - 1) (File.mkBound drv first size true)).2.flags.eof = false ∧
    (File.readSeq drv size (File.mkBound drv first size true)).2.flags.eof = true ∧
    (File.Read drv (File.readSeq drv (size - 1) (File.mkBound drv first size true)).2).byte
      = specByteAt drv first bpn (size - 1) ∧
    (File.Read drv (File.readSeq drv (size - 1)
        (File.mkBound drv first size true)).2).st.flags.eof = true := by
  have hsz := hwf.size_pos
  by_cases h1 : size = 1
  · subst h1
    obtain ⟨sb, ss⟩ := seqBase drv first 1 bpn hwf
    refine ⟨?_, ?_, ?_, ?_⟩
    · show (File.mkBound drv first 1 true).flags.eof = false
      simp [File.mkBound, hwf.first_ne, FileFlagsNone]
    · obtain ⟨_, hs⟩ := readSeq_closed drv first 1 bpn hwf 1 (le_refl 1) (le_refl 1)
      rw [show (File.readSeq drv 1 (File.mkBound drv first 1 true)).2
        = seqStateOf drv first 1 bpn 1 from hs]
      rfl
    · exact sb
    · show (File.Read drv (File.mkBound drv first 1 true)).st.flags.eof = true
      rw [ss]
      rfl
  · obtain ⟨_, hs1⟩ := readSeq_closed drv first size bpn hwf (size - 1) (by omega) (by omega)
    obtain ⟨_, hs2⟩ := readSeq_closed drv first size bpn hwf size hsz (le_refl _)
    obtain ⟨sb, ss⟩ := seqStep drv first size bpn hwf (size - 1) (by omega) (by omega)
    rw [(by omega : size - 1 + 1 = size)] at ss
    refine ⟨?_, ?_, ?_, ?_⟩
    · rw [hs1]
      unfold seqStateOf
      dsimp only
      exact decide_eq_false (by omega)
    · rw [hs2]
      unfold seqStateOf
      dsimp only
      exact decide_eq_true (le_refl size)
    · rw [hs1]
      exact sb
    · rw [hs1, ss]
      unfold seqStateOf
      dsimp only
      exact decide_eq_true (le_refl size)

/-- C4 witness: the amended EOF-boundary law instantiated at the concrete
16-byte file on `exDrv` (block size 4, 2 blocks per chunk, 2 chunks). -/
theorem C4_eof_boundary_witness :
    (File.readSeq exDrv (16 - 1) (File.mkBound exDrv 1 16 true)).2.flags.eof = false :=
  (C4_eof_boundary exDrv 1 16 2
    ⟨by decide, by decide, by decide, by decide, by decide, by decide, by
      intro i hi
      simp only [show (2 : Nat) * exDrv.blockSize = 8 from rfl] at hi
      have hi2 : i < 2 := by omega
      interval_cases i <;> exact ⟨by decide, by decide, by decide⟩⟩).1

end Mcucpp
